import Mathlib

/-!
Verification of the focused crawler core of this repository
(`src/crawl/pref_site_introspect.py` and `src/crawl/pref_site_mapper.py`)
against its natural-language specification.

The Python source is shallowly embedded below.  Conventions:

* Python strings are Lean `String`; positional reasoning on text uses
  `List Char` (Python string indices are code points, as are `List Char`
  indices).
* Machine integers do not occur; Python `int` is `Int` (years, scores) or
  `Nat` (depths, counts).
* The two regular expressions `YEAR_PAT` (one per script) are embedded as
  explicit scanners with Python `finditer` semantics: scan left to right,
  at each position try the alternatives in order (first match wins,
  greedy quantifiers), emit the match and resume after its end,
  otherwise advance one character.
* Network, HTML/PDF parsing and the wall clock are external effects; they
  enter the model as parameters (an `Env` record of oracle functions, and
  an explicit `cy` argument for `time.localtime().tm_year`).
-/

/-- `pat` is a leading segment of `l`. -/
def leadsWith : List Char → List Char → Bool
  | [], _ => true
  | _ :: _, [] => false
  | a :: as, b :: bs => a == b && leadsWith as bs

/-- `pat` occurs as a contiguous segment of `l`. -/
def containsSeq (pat : List Char) : List Char → Bool
  | [] => pat.isEmpty
  | b :: bs => leadsWith pat (b :: bs) || containsSeq pat bs

/-- Python `pat in hay` (substring containment). -/
def strContains (hay pat : String) : Bool :=
  containsSeq pat.toList hay.toList

/-- Substring containment with the haystack given as characters. -/
def containsCL (hay : List Char) (pat : String) : Bool :=
  containsSeq pat.toList hay

/-- Python `str.lower()` on the ASCII range (URLs are ASCII), as
characters. -/
def lowerChar (c : Char) : Char :=
  if 65 ≤ c.toNat ∧ c.toNat ≤ 90 then Char.ofNat (c.toNat + 32) else c

/-- Python `url.lower()`, as characters. -/
def toLowerCL (s : String) : List Char :=
  s.toList.map lowerChar

/-- Python `s.endswith(suf)`. -/
def endsWithCL (l : List Char) (suf : String) : Bool :=
  leadsWith suf.toList.reverse l.reverse

/-- Python `s.startswith(pre)`. -/
def startsWithCL (s : String) (pre : String) : Bool :=
  leadsWith pre.toList s.toList

/-- Python string `<` : lexicographic comparison by code point. -/
def charsLt : List Char → List Char → Bool
  | _, [] => false
  | [], _ :: _ => true
  | a :: as, b :: bs =>
    if a.toNat < b.toNat then true
    else if b.toNat < a.toNat then false
    else charsLt as bs

/-- Python regex `\s` on the ASCII range (the full-width space `U+3000` has
already been normalized away by the time this is used). -/
def spChar (c : Char) : Bool :=
  c == ' ' || c == '\t' || c == '\n' || c == '\r' || c.val == 11 || c.val == 12

/-- Python `int(re.sub(r"\D", "", token))`: the number formed by the digit
characters of the token, in order. -/
def digitsVal (l : List Char) : Nat :=
  (l.filter Char.isDigit).foldl (fun a c => 10 * a + (c.toNat - 48)) 0

/-- Leftmost match of `20\d{2}` in a character list, as a number
(Python `re.search(r"20\d{2}", ...)`). -/
def find20xx : List Char → Option Nat
  | '2' :: '0' :: d1 :: d2 :: rest =>
    if d1.isDigit && d2.isDigit then
      some (2000 + 10 * (d1.toNat - 48) + (d2.toNat - 48))
    else find20xx ('0' :: d1 :: d2 :: rest)
  | _ :: rest => find20xx rest
  | [] => none

/-- Python `re.search(r"20\d{2}", url)` used as a boolean test. -/
def has20xx (s : String) : Bool :=
  (find20xx s.toList).isSome

/-- Python `text.replace("　", " ")` followed by `list(text)`: full-width
space normalization. -/
def normText (s : String) : List Char :=
  s.toList.map (fun c => if c == '　' then ' ' else c)

/-- Python `str.strip()` restricted to ASCII whitespace. -/
def stripSp (l : List Char) : List Char :=
  ((l.dropWhile spChar).reverse.dropWhile spChar).reverse

/-- Match one era alternative of `YEAR_PAT` at the head of `l`:
`era + \s? + \d+` followed, when `nen` is true (the introspect script),
by a mandatory `年` and an optional `度`.  Returns the matched token. -/
def matchEra (k1 k2 : Char) (nen : Bool) (l : List Char) : Option (List Char) :=
  match l with
  | a :: b :: rest =>
    if a == k1 && b == k2 then
      let sp := match rest with
        | c :: _ => if spChar c then [c] else []
        | [] => []
      let rest2 := rest.drop sp.length
      let ds := rest2.takeWhile Char.isDigit
      let rest3 := rest2.drop ds.length
      if ds.isEmpty then none
      else if nen then
        match rest3 with
        | '年' :: '度' :: _ => some (a :: b :: (sp ++ ds ++ ['年', '度']))
        | '年' :: _ => some (a :: b :: (sp ++ ds ++ ['年']))
        | _ => none
      else some (a :: b :: (sp ++ ds))
    else none
  | _ => none

/-- Match the western-year alternative of `YEAR_PAT` at the head of `l`:
`20\d{2}` followed, when `nen` is true, by an optional `年` and then an
optional `度` (the regex group `(?:年度?)?`). -/
def match20 (nen : Bool) (l : List Char) : Option (List Char) :=
  match l with
  | '2' :: '0' :: d1 :: d2 :: rest =>
    if d1.isDigit && d2.isDigit then
      if nen then
        match rest with
        | '年' :: '度' :: _ => some ['2', '0', d1, d2, '年', '度']
        | '年' :: _ => some ['2', '0', d1, d2, '年']
        | _ => some ['2', '0', d1, d2]
      else some ['2', '0', d1, d2]
    else none
  | _ => none

/-- One attempt of the introspect script `YEAR_PAT`
`(令和\s?\d+年度?|平成\s?\d+年度?|20\d{2}(?:年度?)?)` at a position:
alternatives tried in order. -/
def matchAtI (l : List Char) : Option (List Char) :=
  match matchEra '令' '和' true l with
  | some t => some t
  | none =>
    match matchEra '平' '成' true l with
    | some t => some t
    | none => match20 true l

/-- One attempt of the mapper script `YEAR_PAT`
`(令和\s?\d+|平成\s?\d+|20\d{2})` at a position. -/
def matchAtM (l : List Char) : Option (List Char) :=
  match matchEra '令' '和' false l with
  | some t => some t
  | none =>
    match matchEra '平' '成' false l with
    | some t => some t
    | none => match20 false l

/-- Python `finditer` driver: emit `(start, token)` pairs, non-overlapping,
left to right.  `fuel` bounds the number of steps; each step consumes at
least one character, so `fuel = length` is always enough. -/
def scanAux (mAt : List Char → Option (List Char)) :
    Nat → List Char → Nat → List (Nat × List Char)
  | 0, _, _ => []
  | _ + 1, [], _ => []
  | f + 1, c :: rest, pos =>
    match mAt (c :: rest) with
    | some tok =>
      (pos, tok) :: scanAux mAt f ((c :: rest).drop tok.length) (pos + tok.length)
    | none => scanAux mAt f rest (pos + 1)

/-- All matches of the introspect `YEAR_PAT` with their start positions. -/
def scanI (l : List Char) : List (Nat × List Char) :=
  scanAux matchAtI l.length l 0

/-- All matches of the mapper `YEAR_PAT` with their start positions. -/
def scanM (l : List Char) : List (Nat × List Char) :=
  scanAux matchAtM l.length l 0

/-- Era / western-year conversion applied to a matched token, shared by both
scripts: `令和 n ↦ 2018 + n`, `平成 n ↦ 1988 + n`, otherwise the leftmost
`20\d{2}` value. -/
def yearOfToken (tok : List Char) : Option Int :=
  if tok.take 2 == ['令', '和'] then some ((2018 : Int) + digitsVal tok)
  else if tok.take 2 == ['平', '成'] then some ((1988 : Int) + digitsVal tok)
  else (find20xx tok).map (fun n => (n : Int))

/-- `FUTURE_GUARD_WORDS` of both scripts. -/
def FUTURE_GUARD_WORDS : List String :=
  ["計画", "予定", "案", "募集", "予算", "方針", "公募"]

/-- Guard-window test of `extract_year_candidates`: some guard word occurs in
`text[max(0, pos-20) : min(len, pos+len+20)]`, where `pos`/`len` are the
start position and length of the match. -/
def guardNear (text : List Char) (pos len : Nat) : Bool :=
  let near := (text.drop (pos - 20)).take (pos + len + 20 - (pos - 20))
  FUTURE_GUARD_WORDS.any (fun w => containsSeq w.toList near)

/-- Per-match body of `extract_year_candidates`
(`pref_site_introspect.py` lines 102-121): convert the token, drop falsy
years, drop future years, drop matches with a guard word nearby, keep
years in `[1990, current_year]`. -/
def procTokenI (cy : Int) (text : List Char) (p : Nat × List Char) : Option Int :=
  let tok := stripSp p.2
  match yearOfToken tok with
  | none => none
  | some y =>
    if y = 0 then none
    else if cy < y then none
    else if guardNear text p.1 p.2.length then none
    else if 1990 ≤ y ∧ y ≤ cy then some y
    else none

/-- `extract_year_candidates(text)` of `pref_site_introspect.py`
(lines 98-121), with `current_year` made explicit as `cy`. -/
def extract_year_candidates (cy : Int) (s : String) : List Int :=
  (scanI (normText s)).filterMap (procTokenI cy (normText s))

/-- Per-match body of `extract_years_from_text`
(`pref_site_mapper.py` lines 104-119): convert the token, drop falsy
years, drop future years.  No guard-word window and no lower bound. -/
def procTokenM (cy : Int) (p : Nat × List Char) : Option Int :=
  let tok := stripSp p.2
  match yearOfToken tok with
  | none => none
  | some y =>
    if y = 0 then none
    else if cy < y then none
    else some y

/-- Insert into a descending list, keeping it descending. -/
def insertDesc (a : Int) : List Int → List Int
  | [] => [a]
  | b :: t => if b < a then a :: b :: t else b :: insertDesc a t

/-- Sort descending (Python `sorted(..., reverse=True)`). -/
def sortDesc (l : List Int) : List Int :=
  l.foldr insertDesc []

/-- `extract_years_from_text(s)` of `pref_site_mapper.py` (lines 100-121):
collected years, deduplicated and sorted descending
(`sorted(set(years), reverse=True)`). -/
def extract_years_from_text (cy : Int) (s : String) : List Int :=
  if s.toList.isEmpty then []
  else sortDesc (((scanM (normText s)).filterMap (procTokenM cy)).dedup)

/-- The `years` computation of `parse_html` (`pref_site_introspect.py`
line 144): `[meta_time.year] if meta_time else
extract_year_candidates(title + " " + body)`.  The metadata date found by
the external date parser enters as `metaYear`. -/
def parse_html_years (metaYear : Option Int) (cy : Int) (title body : String) :
    List Int :=
  match metaYear with
  | some y => [y]
  | none => extract_year_candidates cy (title ++ " " ++ body)

/-! ## Classifier and priority scorer -/

/-- The PDF test shared by both classifiers:
`(ct and "pdf" in ct) or u.endswith(".pdf")` (with `u` the lower-cased URL
as characters). -/
def pdfCond (ct : String) (u : List Char) : Bool :=
  (!(ct == "") && strContains ct "pdf") || endsWithCL u ".pdf"

/-- The XML test: `(ct and "xml" in ct) or u.endswith(".xml")`. -/
def xmlCond (ct : String) (u : List Char) : Bool :=
  (!(ct == "") && strContains ct "xml") || endsWithCL u ".xml"

/-- The HTML test:
`(ct and ("html" in ct or "xhtml" in ct)) or u.endswith((".html",".htm","/"))`. -/
def htmlCond (ct : String) (u : List Char) : Bool :=
  (!(ct == "") && (strContains ct "html" || strContains ct "xhtml"))
    || (endsWithCL u ".html" || endsWithCL u ".htm" || endsWithCL u "/")

/-- `classify_ext(url, ct)` of `pref_site_introspect.py` (lines 183-191):
checks in the order pdf, xml, csv, json, xls, html. -/
def classify_ext (url ct : String) : String :=
  let u := toLowerCL url
  if pdfCond ct u then "pdf"
  else if xmlCond ct u then "xml"
  else if endsWithCL u ".csv" then "csv"
  else if endsWithCL u ".json" then "json"
  else if endsWithCL u ".xlsx" || endsWithCL u ".xls" || endsWithCL u ".xlsm" then "xls"
  else if htmlCond ct u then "html"
  else "other"

/-- `classify(ct, url)` of `pref_site_mapper.py` (lines 90-98):
checks in the order pdf, html, xml, csv, xls, json. -/
def classify (ct url : String) : String :=
  let u := toLowerCL url
  if pdfCond ct u then "pdf"
  else if htmlCond ct u then "html"
  else if xmlCond ct u then "xml"
  else if endsWithCL u ".csv" then "csv"
  else if endsWithCL u ".xlsx" || endsWithCL u ".xls" || endsWithCL u ".xlsm" then "xls"
  else if endsWithCL u ".json" then "json"
  else "other"

/-- `KEYWORDS` of `pref_site_introspect.py`. -/
def KEYWORDS : List String :=
  ["予察", "発生予察", "発生情報", "注意報", "警報", "バックナンバー",
   "年度", "病害虫", "害虫", "病害"]

/-- `URL_HINTS` of `pref_site_introspect.py`. -/
def URL_HINTS : List String :=
  ["yosatsu", "yosatu", "yohou", "byogaichu", "gaicyu", "gaichu", "byogai", "yosan"]

/-- `priority_score(text, url)` of `pref_site_introspect.py` (lines 193-202):
+3 for each keyword contained in the anchor text, +2 for each URL hint
contained in the lower-cased URL, +1 for a `20\d{2}` token in the URL,
+2 for a back-catalog signal in URL or anchor. -/
def priority_score (text url : String) : Int :=
  let s1 := KEYWORDS.foldl (fun acc k => if strContains text k then acc + 3 else acc) 0
  let s2 := URL_HINTS.foldl
    (fun acc h => if containsCL (toLowerCL url) h then acc + 2 else acc) s1
  let s3 := if has20xx url then s2 + 1 else s2
  if containsCL (toLowerCL url) "back" || strContains text "バックナンバー" then s3 + 2
  else s3

/-! ## URL host parsing and the same-domain rule -/

/-- Split a URL at the first `"://"`, returning the parts before and after. -/
def splitScheme : List Char → Option (List Char × List Char)
  | [] => none
  | ':' :: '/' :: '/' :: rest => some ([], rest)
  | c :: rest =>
    match splitScheme rest with
    | some (pre, post) => some (c :: pre, post)
    | none => none

/-- `urlparse(url).netloc` for absolute http(s) URLs: the text between
`"://"` and the next `/`, `?` or `#`. -/
def netlocOf (url : String) : List Char :=
  match splitScheme url.toList with
  | none => []
  | some (_, post) => post.takeWhile (fun c => c != '/' && c != '?' && c != '#')

/-- `urlparse(url).netloc.split(":")[0]`: the host without a port. -/
def hostNoPort (url : String) : List Char :=
  (netlocOf url).takeWhile (fun c => c != ':')

/-- `is_same_domain(base, link)` of both scripts: equal hosts, or both hosts
under the shared-government suffix `.go.jp`. -/
def is_same_domain (base link : String) : Bool :=
  let b := hostNoPort base
  let l := hostNoPort link
  (b == l) || (endsWithCL b ".go.jp" && endsWithCL l ".go.jp")

/-- `urlparse(url).scheme + "://" + urlparse(url).netloc`, the key of the
robots cache. -/
def hostOf (url : String) : String :=
  match splitScheme url.toList with
  | none => "://"
  | some (pre, post) =>
    String.mk pre ++ "://"
      ++ String.mk (post.takeWhile (fun c => c != '/' && c != '?' && c != '#'))

/-! ## Robots gate

The scripts build a `urllib.robotparser.RobotFileParser`, call `rp.read()`
inside `try ... except Exception: pass`, cache the parser per host, and
answer `rp.can_fetch(UA, url)`.  `RobotFileParser` semantics (CPython
`Lib/urllib/robotparser.py`): `read()` sets `disallow_all` on HTTP 401/403,
`allow_all` on other 4xx, parses the rules on success, and propagates any
other exception (e.g. network failure) leaving the parser untouched;
`can_fetch` answers `False` when `disallow_all`, `True` when `allow_all`,
`False` when the file was never successfully read or flagged
(`last_checked == 0`), and otherwise consults the parsed rules. -/

/-- The relevant state of a `RobotFileParser` after `read()` was attempted.
`readOk` is `last_checked != 0`; `rules` is the parsed ruleset applied to the
fixed user agent of the script. -/
structure RPState where
  disallowAll : Bool
  allowAll : Bool
  readOk : Bool
  rules : String → Bool

/-- Outcome of `rp.read()` for one host: an exception escaped (and was
swallowed by the caller), an `HTTPError` with a status code, or a parsed
ruleset. -/
inductive ReadOutcome where
  | raises
  | httpErr (code : Nat)
  | ok (rules : String → Bool)

/-- Parser state after `rp.read()` wrapped in `try ... except: pass`. -/
def afterRead : ReadOutcome → RPState
  | .raises => ⟨false, false, false, fun _ => false⟩
  | .httpErr c =>
    ⟨c == 401 || c == 403,
     (400 ≤ c && c < 500) && !(c == 401 || c == 403),
     false, fun _ => false⟩
  | .ok rules => ⟨false, false, true, rules⟩

/-- `RobotFileParser.can_fetch(UA, url)`. -/
def can_fetch (st : RPState) (url : String) : Bool :=
  if st.disallowAll then false
  else if st.allowAll then true
  else if !st.readOk then false
  else st.rules url

/-! ## Environment: network and parser oracles

`Env` packages the external effects of one run: the per-host outcome of the
robots fetch, the per-URL HTTP response, and the per-URL output of the
external HTML/XML/PDF parsers (with `href`s already resolved by `urljoin`
against the fetched page). -/

/-- `requests.get` outcome for one URL: an exception message, or a response
with status, lower-cased content type, and whether the body is non-empty. -/
inductive HttpRes where
  | fail (msg : String)
  | resp (status : Nat) (ct : String) (bodyNonempty : Bool)

/-- Parser output consumed by the introspect loop: the fields of the dict
returned by `parse_html` / `parse_xml` / `parse_pdf_quick`. -/
structure MetaD where
  title : String
  text_len : Nat
  years : List Int
  links : List (String × String)

/-- External effects of one run. -/
structure Env where
  robots : String → ReadOutcome
  http : String → HttpRes
  meta : String → MetaD
  mmeta : String → String × String × List (String × String)

/-- `ROBOTS.allowed(url)` of both scripts: build (once per host) the parser
for `hostOf url` and ask `can_fetch`.  The cache only memoizes; the answer
per URL is fixed for the whole run, so it is modeled as a pure function. -/
def allowedE (env : Env) (url : String) : Bool :=
  can_fetch (afterRead (env.robots (hostOf url))) url

/-- The quadruple returned by `fetch` (status, content type, body, error),
with the body abstracted to its non-emptiness. -/
structure FetchR where
  status : Option Nat
  ctype : Option String
  bodyNonempty : Bool
  err : Option String
deriving DecidableEq

/-- `fetch(url)` of both scripts: the robots gate first (no HTTP request on
denial), then a single `requests.get` whose exceptions become `err`. -/
def fetchE (env : Env) (url : String) : FetchR :=
  if !allowedE env url then ⟨none, none, false, some "robots_disallow"⟩
  else
    match env.http url with
    | .fail m => ⟨none, none, false, some m⟩
    | .resp st ct b => ⟨some st, some ct, b, none⟩

/-! ## Introspect frontier: `queue.PriorityQueue` of 4-tuples

`introspect_pref` enqueues tuples `(-priority, depth, url, source_url)` and
`q.get()` returns the least tuple under Python tuple comparison
(lexicographic; strings compare by code point). -/

/-- One frontier entry of `introspect_pref`: the tuple
`(-priority, depth, url, src)`. -/
structure QEntry where
  negPrio : Int
  depth : Nat
  url : String
  src : String
deriving DecidableEq

/-- Python `<` on the tuples `(-priority, depth, url, src)`. -/
def keyLt (a b : QEntry) : Bool :=
  if a.negPrio < b.negPrio then true
  else if b.negPrio < a.negPrio then false
  else if a.depth < b.depth then true
  else if b.depth < a.depth then false
  else if charsLt a.url.toList b.url.toList then true
  else if charsLt b.url.toList a.url.toList then false
  else charsLt a.src.toList b.src.toList

/-- `q.get()` on the priority queue holding `l`: remove and return a least
entry (the earliest among equal tuples). -/
def popMin : List QEntry → Option (QEntry × List QEntry)
  | [] => none
  | a :: rest =>
    match popMin rest with
    | none => some (a, [])
    | some (m, rem) => if keyLt m a then some (m, a :: rem) else some (a, rest)

/-- `q.get()` on the mapper FIFO `queue.Queue`: the head, in insertion
order. -/
def mpop {α : Type} : List α → Option (α × List α)
  | [] => none
  | a :: rest => some (a, rest)

/-! ## The `introspect_pref` crawl loop (`pref_site_introspect.py` 205-270) -/

/-- One row of `rows_detail` (the per-seed CrawlRecord).  `years` is kept as
the extracted list (the script serializes it with `"|".join`). -/
structure IRecord where
  url : String
  depth : Nat
  src : String
  status : Option Nat
  ctype : Option String
  kind : String
  title : String
  years : List Int
  text_len : Nat
deriving DecidableEq

/-- Mutable state of the `introspect_pref` loop. -/
structure IState where
  visited : List String
  queue : List QEntry
  records : List IRecord
deriving DecidableEq

/-- Extractor dispatch of the loop body (lines 233-244): html keeps the
parser output, xml drops links, pdf drops title and links, anything else is
not parsed. -/
def metaFor (env : Env) (url kind : String) : MetaD :=
  if kind == "html" then env.meta url
  else if kind == "xml" then { env.meta url with links := [] }
  else if kind == "pdf" then
    { title := "", text_len := (env.meta url).text_len,
      years := (env.meta url).years, links := [] }
  else { title := "", text_len := 0, years := [], links := [] }

/-- Link filter of the enqueue block (lines 264-270): keep http(s) links on
the same domain as the seed that are not yet visited, and build the
priority-queue tuple with `depth+1` and the computed score. -/
def linkFilter (startUrl : String) (visited : List String) (depth : Nat)
    (url : String) (pr : String × String) : Option QEntry :=
  if !(startsWithCL pr.1 "http") then none
  else if !(is_same_domain startUrl pr.1) then none
  else if visited.contains pr.1 then none
  else some ⟨-(priority_score pr.2 pr.1), depth + 1, pr.1, url⟩

/-- Entries enqueued after processing one page (lines 262-270): only when
`depth < max_depth` and the page kind is html or xml. -/
def newEntriesI (startUrl : String) (visited : List String) (maxDepth : Nat)
    (e : QEntry) (kind : String) (links : List (String × String)) : List QEntry :=
  if e.depth < maxDepth && (kind == "html" || kind == "xml") then
    links.filterMap (linkFilter startUrl visited e.depth e.url)
  else []

/-- One iteration of the `while` body of `introspect_pref` (lines 221-270),
assuming the loop guard holds: pop, dedup against `visited`, fetch, and on
success classify, extract, record, and enqueue links. -/
def istep (env : Env) (startUrl : String) (maxDepth : Nat) (s : IState) : IState :=
  match popMin s.queue with
  | none => s
  | some (e, q') =>
    if s.visited.contains e.url then { s with queue := q' }
    else
      let visited' := e.url :: s.visited
      let f := fetchE env e.url
      if f.status = some 200 ∧ f.err = none then
        let ct := f.ctype.getD ""
        let kind := classify_ext e.url ct
        let m := metaFor env e.url kind
        { visited := visited',
          queue := q' ++ newEntriesI startUrl visited' maxDepth e kind m.links,
          records := s.records ++
            [⟨e.url, e.depth, e.src, f.status, some ct, kind, m.title, m.years,
              m.text_len⟩] }
      else
        { visited := visited', queue := q',
          records := s.records ++
            [⟨e.url, e.depth, e.src, f.status, f.ctype, "error", "", [], 0⟩] }

/-- The `while not q.empty() and len(visited) < max_pages` loop, fuel-bounded.
Stopping early only truncates the run; every reachable state is an iterate
of `istep`. -/
def irun (env : Env) (startUrl : String) (maxDepth maxPages : Nat) :
    Nat → IState → IState
  | 0, s => s
  | f + 1, s =>
    if s.queue = [] ∨ maxPages ≤ s.visited.length then s
    else irun env startUrl maxDepth maxPages f (istep env startUrl maxDepth s)

/-- `introspect_pref(pref, start_url, max_pages, max_depth)`: the loop run
from the initial state `visited = {}`, `q = [(-10, 0, start_url, "root")]`. -/
def introspect_pref (env : Env) (startUrl : String)
    (maxPages maxDepth fuel : Nat) : IState :=
  irun env startUrl maxDepth maxPages fuel ⟨[], [⟨-10, 0, startUrl, "root"⟩], []⟩

/-! ## The `map_pref` crawl loop (`pref_site_mapper.py` 147-272) -/

/-- One frontier entry of `map_pref`: the tuple `(depth, url, parent)`. -/
structure MEntry where
  depth : Nat
  url : String
  parent : String
deriving DecidableEq

/-- One row of `pages` (columns that carry crawl state; the display-only
columns `title`, `h1`, `section`, `n_out_links`, `n_pdf_links` are not
modeled). -/
structure MRecord where
  url : String
  depth : Nat
  parent : String
  status : Option Nat
  ctype : String
  kind : String
deriving DecidableEq

/-- One row of `pdf_rows` (lines 206-214), keyed fields. -/
structure MPdfRow where
  source_page : String
  depth : Nat
  pdf_url : String
  anchor_text : String
  years : List Int
deriving DecidableEq

/-- Mutable state of the `map_pref` loop. -/
structure MState where
  visited : List String
  queue : List MEntry
  pages : List MRecord
  pdfs : List MPdfRow

/-- Links enqueued from one page (lines 196-224): http(s), same domain, not
a `.pdf`, and only when `depth < max_depth`; the new entry carries
`depth+1`.  (`map_pref` does not check `visited` at enqueue time.) -/
def mNewEntries (startUrl : String) (depth : Nat) (url : String)
    (maxDepth : Nat) (anchors : List (String × String)) : List MEntry :=
  anchors.filterMap (fun pr =>
    if !(startsWithCL pr.1 "http") then none
    else if !(is_same_domain startUrl pr.1) then none
    else if endsWithCL (toLowerCL pr.1) ".pdf" then none
    else if depth < maxDepth then some ⟨depth + 1, pr.1, url⟩
    else none)

/-- PDF rows collected from one page (lines 203-218): same-domain `.pdf`
links, with years extracted from `f"{text} {title} {full}"`. -/
def mPdfRows (cy : Int) (startUrl : String) (depth : Nat) (url title : String)
    (anchors : List (String × String)) : List MPdfRow :=
  anchors.filterMap (fun pr =>
    if !(startsWithCL pr.1 "http") then none
    else if !(is_same_domain startUrl pr.1) then none
    else if endsWithCL (toLowerCL pr.1) ".pdf" then
      some ⟨url, depth, pr.1, pr.2,
            extract_years_from_text cy (pr.2 ++ " " ++ title ++ " " ++ pr.1)⟩
    else none)

/-- One iteration of the `while` body of `map_pref` (lines 172-245). -/
def mstep (env : Env) (cy : Int) (startUrl : String) (maxDepth : Nat)
    (s : MState) : MState :=
  match mpop s.queue with
  | none => s
  | some (e, q') =>
    if s.visited.contains e.url then { s with queue := q' }
    else
      let visited' := e.url :: s.visited
      let f := fetchE env e.url
      let kind := classify (f.ctype.getD "") e.url
      let rec1 : MRecord := ⟨e.url, e.depth, e.parent, f.status, f.ctype.getD "", kind⟩
      if f.status = some 200 ∧ f.bodyNonempty = true ∧ kind = "html" then
        let pm := env.mmeta e.url
        { visited := visited',
          queue := q' ++ mNewEntries startUrl e.depth e.url maxDepth pm.2.2,
          pages := s.pages ++ [rec1],
          pdfs := s.pdfs ++ mPdfRows cy startUrl e.depth e.url pm.1 pm.2.2 }
      else
        { visited := visited', queue := q', pages := s.pages ++ [rec1],
          pdfs := s.pdfs }

/-- The fuel-bounded `while not q.empty() and len(visited) < max_pages` loop
of `map_pref`. -/
def mrun (env : Env) (cy : Int) (startUrl : String) (maxDepth maxPages : Nat) :
    Nat → MState → MState
  | 0, s => s
  | f + 1, s =>
    if s.queue = [] ∨ maxPages ≤ s.visited.length then s
    else mrun env cy startUrl maxDepth maxPages f (mstep env cy startUrl maxDepth s)

/-- `map_pref(pref, start_url, max_pages, max_depth)`: the loop run from
`visited = {}`, `q = [(0, start_url, None)]` (the absent parent is `""`). -/
def map_pref (env : Env) (cy : Int) (startUrl : String)
    (maxPages maxDepth fuel : Nat) : MState :=
  mrun env cy startUrl maxDepth maxPages fuel ⟨[], [⟨0, startUrl, ""⟩], [], []⟩

/-! ## Helper lemmas -/

theorem mem_insertDesc {x a : Int} {l : List Int} :
    x ∈ insertDesc a l ↔ x = a ∨ x ∈ l := by
  induction l with
  | nil => simp [insertDesc]
  | cons b t ih =>
    simp only [insertDesc]
    split
    · simp
    · simp [ih]; tauto

theorem mem_sortDesc {x : Int} {l : List Int} : x ∈ sortDesc l ↔ x ∈ l := by
  induction l with
  | nil => simp [sortDesc]
  | cons a t ih =>
    simp only [sortDesc, List.foldr_cons, mem_insertDesc]
    simp only [sortDesc] at ih
    simp [ih]

theorem foldl_add_if (p : String → Bool) (c : Int) (l : List String) :
    ∀ a : Int,
      l.foldl (fun acc k => if p k then acc + c else acc) a = a + c * l.countP p := by
  induction l with
  | nil => intro a; simp
  | cons k t ih =>
    intro a
    simp only [List.foldl_cons, List.countP_cons]
    by_cases hp : p k
    · rw [if_pos hp, ih]; simp [hp]; ring
    · rw [if_neg hp, ih]; simp [hp]

theorem charsLt_asymm : ∀ {x y : List Char},
    charsLt x y = true → charsLt y x = false := by
  intro x
  induction x with
  | nil =>
    intro y h
    cases y with
    | nil => simp [charsLt] at h
    | cons b bs => simp [charsLt]
  | cons a as ih =>
    intro y h
    cases y with
    | nil => simp [charsLt] at h
    | cons b bs =>
      simp only [charsLt] at h ⊢
      by_cases h1 : a.toNat < b.toNat
      · have h2 : ¬ b.toNat < a.toNat := by omega
        simp [h1, h2]
      · by_cases h2 : b.toNat < a.toNat
        · simp [h1, h2] at h
        · simp [h1, h2] at h ⊢
          exact ih h

theorem popMin_mem : ∀ {l : List QEntry} {e : QEntry} {q : List QEntry},
    popMin l = some (e, q) → e ∈ l ∧ ∀ x ∈ q, x ∈ l := by
  intro l
  induction l with
  | nil => intro e q h; simp [popMin] at h
  | cons a rest ih =>
    intro e q h
    simp only [popMin] at h
    cases hr : popMin rest with
    | none =>
      rw [hr] at h
      simp only [Option.some.injEq, Prod.mk.injEq] at h
      obtain ⟨he, hq⟩ := h
      subst he; subst hq
      simp
    | some pr =>
      obtain ⟨m, rem⟩ := pr
      rw [hr] at h
      dsimp only at h
      have hm := ih hr
      by_cases hk : keyLt m a = true
      · rw [if_pos hk] at h
        simp only [Option.some.injEq, Prod.mk.injEq] at h
        obtain ⟨he, hq⟩ := h
        subst he; subst hq
        refine ⟨List.mem_cons_of_mem a hm.1, ?_⟩
        intro x hx
        rcases List.mem_cons.mp hx with h1 | h1
        · subst h1; exact List.mem_cons_self x rest
        · exact List.mem_cons_of_mem a (hm.2 x h1)
      · rw [if_neg hk] at h
        simp only [Option.some.injEq, Prod.mk.injEq] at h
        obtain ⟨he, hq⟩ := h
        subst he; subst hq
        exact ⟨List.mem_cons_self a rest, fun x hx => List.mem_cons_of_mem a hx⟩

theorem popMin_pair (a b : QEntry) :
    popMin [a, b] = if keyLt b a then some (b, [a]) else some (a, [b]) := by
  simp [popMin]

theorem keyLt_of_negPrio_lt {a b : QEntry} (h : a.negPrio < b.negPrio) :
    keyLt a b = true ∧ keyLt b a = false := by
  have h2 : ¬ b.negPrio < a.negPrio := by omega
  constructor <;> simp [keyLt, h, h2]

theorem keyLt_of_url_lt {a b : QEntry} (hp : a.negPrio = b.negPrio)
    (hd : a.depth = b.depth) (hu : charsLt a.url.toList b.url.toList = true) :
    keyLt a b = true ∧ keyLt b a = false := by
  have h1 : ¬ a.negPrio < b.negPrio := by omega
  have h2 : ¬ b.negPrio < a.negPrio := by omega
  have h3 : ¬ a.depth < b.depth := by omega
  have h4 : ¬ b.depth < a.depth := by omega
  have hu' : charsLt a.url.data b.url.data = true := hu
  have h5 : charsLt b.url.data a.url.data = false := charsLt_asymm hu
  constructor <;> simp [keyLt, String.toList, h1, h2, h3, h4, hu', h5]

theorem procTokenI_bounds {cy : Int} {text : List Char} {p : Nat × List Char}
    {y : Int} (h : procTokenI cy text p = some y) :
    1990 ≤ y ∧ y ≤ cy ∧ guardNear text p.1 p.2.length = false := by
  simp only [procTokenI] at h
  split at h
  · exact absurd h (by simp)
  · split at h
    · exact absurd h (by simp)
    · split at h
      · exact absurd h (by simp)
      · split at h
        · exact absurd h (by simp)
        · split at h
          · next hy _ _ hg hrange =>
            obtain ⟨h1, h2⟩ := hrange
            obtain rfl : _ = y := Option.some.inj h
            exact ⟨h1, h2, Bool.not_eq_true _ ▸ eq_false_of_ne_true hg⟩
          · exact absurd h (by simp)

theorem procTokenM_le {cy : Int} {p : Nat × List Char} {y : Int}
    (h : procTokenM cy p = some y) : y ≤ cy := by
  simp only [procTokenM] at h
  split at h
  · exact absurd h (by simp)
  · split at h
    · exact absurd h (by simp)
    · split at h
      · exact absurd h (by simp)
      · next hfut =>
        obtain rfl : _ = y := Option.some.inj h
        omega

theorem eyc_mem {cy : Int} {s : String} {y : Int}
    (h : y ∈ extract_year_candidates cy s) :
    ∃ p, p ∈ scanI (normText s) ∧ procTokenI cy (normText s) p = some y := by
  simpa [extract_year_candidates, List.mem_filterMap] using h

theorem eyft_mem {cy : Int} {s : String} {y : Int}
    (h : y ∈ extract_years_from_text cy s) :
    ∃ p, p ∈ scanM (normText s) ∧ procTokenM cy p = some y := by
  simp only [extract_years_from_text] at h
  split at h
  · exact absurd h (by simp)
  · rw [mem_sortDesc, List.mem_dedup, List.mem_filterMap] at h
    exact h

/-! ## Loop invariants -/

/-- Depth invariant of the introspect loop: every frontier entry and every
record is within the depth bound. -/
def IDepthInv (d : Nat) (s : IState) : Prop :=
  (∀ e ∈ s.queue, e.depth ≤ d) ∧ (∀ r ∈ s.records, r.depth ≤ d)

theorem newEntriesI_depth {su : String} {vis : List String} {d : Nat}
    {e : QEntry} {kind : String} {links : List (String × String)} :
    ∀ q ∈ newEntriesI su vis d e kind links, q.depth = e.depth + 1 ∧ q.depth ≤ d := by
  intro q hq
  simp only [newEntriesI] at hq
  split at hq
  · next hcond =>
    have hd : e.depth < d := by
      simp only [Bool.and_eq_true, decide_eq_true_eq] at hcond
      exact hcond.1
    rw [List.mem_filterMap] at hq
    obtain ⟨pr, _, hf⟩ := hq
    simp only [linkFilter] at hf
    split at hf
    · exact absurd hf (by simp)
    · split at hf
      · exact absurd hf (by simp)
      · split at hf
        · exact absurd hf (by simp)
        · obtain rfl : _ = q := Option.some.inj hf
          refine ⟨rfl, ?_⟩
          show e.depth + 1 ≤ d
          omega
  · exact absurd hq (by simp)

theorem istep_depthInv {env : Env} {su : String} {d : Nat} {s : IState}
    (h : IDepthInv d s) : IDepthInv d (istep env su d s) := by
  unfold istep
  cases hp : popMin s.queue with
  | none => exact h
  | some pr =>
    obtain ⟨e, q'⟩ := pr
    have hmem := popMin_mem hp
    have he : e.depth ≤ d := h.1 e hmem.1
    have hq' : ∀ x ∈ q', x.depth ≤ d := fun x hx => h.1 x (hmem.2 x hx)
    dsimp only
    split
    · exact ⟨hq', h.2⟩
    · split
      · constructor
        · intro x hx
          rcases List.mem_append.mp hx with h1 | h1
          · exact hq' x h1
          · exact (newEntriesI_depth x h1).2
        · intro r hr
          rcases List.mem_append.mp hr with h1 | h1
          · exact h.2 r h1
          · rcases List.mem_singleton.mp h1 with rfl
            exact he
      · constructor
        · exact hq'
        · intro r hr
          rcases List.mem_append.mp hr with h1 | h1
          · exact h.2 r h1
          · rcases List.mem_singleton.mp h1 with rfl
            exact he

theorem irun_depthInv {env : Env} {su : String} {d mp : Nat} {s : IState}
    (h : IDepthInv d s) : ∀ f, IDepthInv d (irun env su d mp f s) := by
  intro f
  induction f generalizing s with
  | zero => exact h
  | succ f ih =>
    rw [irun]
    split
    · exact h
    · exact ih (istep_depthInv h)

/-- Depth invariant of the mapper loop. -/
def MDepthInv (d : Nat) (s : MState) : Prop :=
  (∀ e ∈ s.queue, e.depth ≤ d) ∧ (∀ r ∈ s.pages, r.depth ≤ d)

theorem mNewEntries_depth {su : String} {dep : Nat} {url : String} {d : Nat}
    {anchors : List (String × String)} :
    ∀ m ∈ mNewEntries su dep url d anchors, m.depth = dep + 1 ∧ m.depth ≤ d := by
  intro m hm
  simp only [mNewEntries, List.mem_filterMap] at hm
  obtain ⟨pr, _, hf⟩ := hm
  split at hf
  · exact absurd hf (by simp)
  · split at hf
    · exact absurd hf (by simp)
    · split at hf
      · exact absurd hf (by simp)
      · split at hf
        · next hd =>
          obtain rfl : _ = m := Option.some.inj hf
          refine ⟨rfl, ?_⟩
          show dep + 1 ≤ d
          omega
        · exact absurd hf (by simp)

theorem mstep_depthInv {env : Env} {cy : Int} {su : String} {d : Nat}
    {s : MState} (h : MDepthInv d s) : MDepthInv d (mstep env cy su d s) := by
  unfold mstep
  cases hq : s.queue with
  | nil => simpa [mpop] using h
  | cons e q' =>
    have he : e.depth ≤ d := h.1 e (hq ▸ List.mem_cons_self e q')
    have hq' : ∀ x ∈ q', x.depth ≤ d :=
      fun x hx => h.1 x (hq ▸ List.mem_cons_of_mem e hx)
    simp only [mpop]
    split
    · exact ⟨hq', h.2⟩
    · split
      · constructor
        · intro x hx
          rcases List.mem_append.mp hx with h1 | h1
          · exact hq' x h1
          · exact (mNewEntries_depth x h1).2
        · intro r hr
          rcases List.mem_append.mp hr with h1 | h1
          · exact h.2 r h1
          · rcases List.mem_singleton.mp h1 with rfl
            exact he
      · constructor
        · exact hq'
        · intro r hr
          rcases List.mem_append.mp hr with h1 | h1
          · exact h.2 r h1
          · rcases List.mem_singleton.mp h1 with rfl
            exact he

theorem mrun_depthInv {env : Env} {cy : Int} {su : String} {d mp : Nat}
    {s : MState} (h : MDepthInv d s) : ∀ f, MDepthInv d (mrun env cy su d mp f s) := by
  intro f
  induction f generalizing s with
  | zero => exact h
  | succ f ih =>
    rw [mrun]
    split
    · exact h
    · exact ih (mstep_depthInv h)

/-- Dedup invariant of the introspect loop: record URLs are distinct and all
recorded URLs are in the visited set. -/
def IUrlInv (s : IState) : Prop :=
  (s.records.map (fun r => r.url)).Nodup ∧
    ∀ r ∈ s.records, r.url ∈ s.visited

theorem istep_urlInv {env : Env} {su : String} {d : Nat} {s : IState}
    (h : IUrlInv s) : IUrlInv (istep env su d s) := by
  unfold istep
  cases hp : popMin s.queue with
  | none => exact h
  | some pr =>
    obtain ⟨e, q'⟩ := pr
    dsimp only
    split
    · exact h
    · next hnv =>
      have hnv' : e.url ∉ s.visited := by
        intro hmem
        exact hnv (List.elem_iff.mpr hmem)
      have hfresh : ∀ r ∈ s.records, r.url ≠ e.url := by
        intro r hr heq
        exact hnv' (heq ▸ h.2 r hr)
      split
      · constructor
        · simp only [List.map_append, List.map_cons, List.map_nil]
          rw [List.nodup_append]
          refine ⟨h.1, List.nodup_singleton _, ?_⟩
          intro u hu hu'
          rw [List.mem_singleton] at hu'
          rw [List.mem_map] at hu
          obtain ⟨r, hr, rfl⟩ := hu
          exact hfresh r hr hu'
        · intro r hr
          rcases List.mem_append.mp hr with h1 | h1
          · exact List.mem_cons_of_mem _ (h.2 r h1)
          · rcases List.mem_singleton.mp h1 with rfl
            exact List.mem_cons_self _ _
      · constructor
        · simp only [List.map_append, List.map_cons, List.map_nil]
          rw [List.nodup_append]
          refine ⟨h.1, List.nodup_singleton _, ?_⟩
          intro u hu hu'
          rw [List.mem_singleton] at hu'
          rw [List.mem_map] at hu
          obtain ⟨r, hr, rfl⟩ := hu
          exact hfresh r hr hu'
        · intro r hr
          rcases List.mem_append.mp hr with h1 | h1
          · exact List.mem_cons_of_mem _ (h.2 r h1)
          · rcases List.mem_singleton.mp h1 with rfl
            exact List.mem_cons_self _ _

theorem irun_urlInv {env : Env} {su : String} {d mp : Nat} {s : IState}
    (h : IUrlInv s) : ∀ f, IUrlInv (irun env su d mp f s) := by
  intro f
  induction f generalizing s with
  | zero => exact h
  | succ f ih =>
    rw [irun]
    split
    · exact h
    · exact ih (istep_urlInv h)

theorem istep_visited_len {env : Env} {su : String} {d : Nat} {s : IState} :
    (istep env su d s).visited.length ≤ s.visited.length + 1 := by
  unfold istep
  cases hp : popMin s.queue with
  | none =>
    show s.visited.length ≤ s.visited.length + 1
    omega
  | some pr =>
    obtain ⟨e, q'⟩ := pr
    dsimp only
    split
    · show s.visited.length ≤ s.visited.length + 1
      omega
    · split <;> simp

theorem irun_visited_le {env : Env} {su : String} {d mp : Nat} {s : IState}
    (h : s.visited.length ≤ mp) : ∀ f, (irun env su d mp f s).visited.length ≤ mp := by
  intro f
  induction f generalizing s with
  | zero => exact h
  | succ f ih =>
    rw [irun]
    split
    · exact h
    · next hg =>
      have hlt : s.visited.length < mp := by
        rcases not_or.mp hg with ⟨_, h2⟩
        omega
      exact ih (le_trans istep_visited_len (by omega))

/-- Dedup invariant of the mapper loop. -/
def MUrlInv (s : MState) : Prop :=
  (s.pages.map (fun r => r.url)).Nodup ∧
    ∀ r ∈ s.pages, r.url ∈ s.visited

theorem mstep_urlInv {env : Env} {cy : Int} {su : String} {d : Nat}
    {s : MState} (h : MUrlInv s) : MUrlInv (mstep env cy su d s) := by
  unfold mstep
  cases hq : s.queue with
  | nil => simpa [mpop] using h
  | cons e q' =>
    simp only [mpop]
    split
    · exact h
    · next hnv =>
      have hnv' : e.url ∉ s.visited := by
        intro hmem
        exact hnv (List.elem_iff.mpr hmem)
      have hfresh : ∀ r ∈ s.pages, r.url ≠ e.url := by
        intro r hr heq
        exact hnv' (heq ▸ h.2 r hr)
      split
      · constructor
        · simp only [List.map_append, List.map_cons, List.map_nil]
          rw [List.nodup_append]
          refine ⟨h.1, List.nodup_singleton _, ?_⟩
          intro u hu hu'
          rw [List.mem_singleton] at hu'
          rw [List.mem_map] at hu
          obtain ⟨r, hr, rfl⟩ := hu
          exact hfresh r hr hu'
        · intro r hr
          rcases List.mem_append.mp hr with h1 | h1
          · exact List.mem_cons_of_mem _ (h.2 r h1)
          · rcases List.mem_singleton.mp h1 with rfl
            exact List.mem_cons_self _ _
      · constructor
        · simp only [List.map_append, List.map_cons, List.map_nil]
          rw [List.nodup_append]
          refine ⟨h.1, List.nodup_singleton _, ?_⟩
          intro u hu hu'
          rw [List.mem_singleton] at hu'
          rw [List.mem_map] at hu
          obtain ⟨r, hr, rfl⟩ := hu
          exact hfresh r hr hu'
        · intro r hr
          rcases List.mem_append.mp hr with h1 | h1
          · exact List.mem_cons_of_mem _ (h.2 r h1)
          · rcases List.mem_singleton.mp h1 with rfl
            exact List.mem_cons_self _ _

theorem mrun_urlInv {env : Env} {cy : Int} {su : String} {d mp : Nat}
    {s : MState} (h : MUrlInv s) : ∀ f, MUrlInv (mrun env cy su d mp f s) := by
  intro f
  induction f generalizing s with
  | zero => exact h
  | succ f ih =>
    rw [mrun]
    split
    · exact h
    · exact ih (mstep_urlInv h)

theorem mstep_visited_len {env : Env} {cy : Int} {su : String} {d : Nat}
    {s : MState} : (mstep env cy su d s).visited.length ≤ s.visited.length + 1 := by
  unfold mstep
  cases hq : s.queue with
  | nil => simp [mpop]
  | cons e q' =>
    simp only [mpop]
    split
    · show s.visited.length ≤ s.visited.length + 1
      omega
    · split <;> simp

theorem mrun_visited_le {env : Env} {cy : Int} {su : String} {d mp : Nat}
    {s : MState} (h : s.visited.length ≤ mp) :
    ∀ f, (mrun env cy su d mp f s).visited.length ≤ mp := by
  intro f
  induction f generalizing s with
  | zero => exact h
  | succ f ih =>
    rw [mrun]
    split
    · exact h
    · next hg =>
      have hlt : s.visited.length < mp := by
        rcases not_or.mp hg with ⟨_, h2⟩
        omega
      exact ih (le_trans mstep_visited_len (by omega))

/-! ## Claim theorems -/

/-- C4, counterexample: the claim fixes the check order PDF → XML → CSV/JSON
/spreadsheet → HTML for `classify(content_type, url)` and demands `"xml"`
whenever both an XML rule and an HTML rule hold.  The mapper `classify`
checks HTML before XML: for content type `"text/html"` with URL suffix
`.xml`, both rules hold, yet the result is `"html"`, not `"xml"`. -/
theorem claim_C4_cex :
    xmlCond "text/html" (toLowerCL "http://x.go.jp/a.xml") = true ∧
      htmlCond "text/html" (toLowerCL "http://x.go.jp/a.xml") = true ∧
      classify "text/html" "http://x.go.jp/a.xml" = "html" ∧
      classify "text/html" "http://x.go.jp/a.xml" ≠ "xml" := by
  refine ⟨by decide, by decide, by decide, by decide⟩

/-- C4 (amended): the introspect classifier `classify_ext` checks in the
claimed order, so any input satisfying the XML rule and not the PDF rule
yields `"xml"` (in particular when the HTML rule also holds); the mapper
`classify` checks HTML second, so any input satisfying the HTML rule and not
the PDF rule yields `"html"` (even when the XML rule also holds). -/
theorem claim_C4_thm :
    (∀ ct url : String, xmlCond ct (toLowerCL url) = true →
      pdfCond ct (toLowerCL url) = false → classify_ext url ct = "xml")
    ∧ (∀ ct url : String, htmlCond ct (toLowerCL url) = true →
      pdfCond ct (toLowerCL url) = false → classify ct url = "html") := by
  constructor
  · intro ct url hx hp
    simp [classify_ext, hp, hx]
  · intro ct url hh hp
    simp [classify, hp, hh]

/-- C4 witness: `application/xhtml+xml` satisfies both the XML and the HTML
rule and neither PDF rule; the two classifiers disagree as proved. -/
theorem claim_C4_witness :
    classify_ext "http://x.go.jp/data" "application/xhtml+xml" = "xml" ∧
      classify "application/xhtml+xml" "http://x.go.jp/data" = "html" :=
  ⟨claim_C4_thm.1 "application/xhtml+xml" "http://x.go.jp/data"
      (by decide) (by decide),
   claim_C4_thm.2 "application/xhtml+xml" "http://x.go.jp/data"
      (by decide) (by decide)⟩

/-- C5, counterexample: the claim predicts score 3 for the anchor
`発生予察情報` with a plain URL, but the anchor contains two keywords of
`KEYWORDS` (`予察` and `発生予察`), so `priority_score` returns 6. -/
theorem claim_C5_cex :
    priority_score "発生予察情報" "http://example.com/page" = 6 ∧
      priority_score "発生予察情報" "http://example.com/page" ≠ 3 := by
  refine ⟨by decide, by decide⟩

/-- C5 (amended): the score is additive with +3 per distinct keyword
contained in the anchor text (not per occurrence), +2 per distinct URL hint
contained in the lower-cased URL, +1 for a `20\d{2}` token in the URL and
+2 for a back-catalog signal; for the anchor `発生予察情報` and a plain URL
two keywords match, so the score is 6. -/
theorem claim_C5_thm :
    (∀ text url : String,
      priority_score text url =
        3 * (KEYWORDS.countP (fun k => strContains text k) : Int)
          + 2 * (URL_HINTS.countP (fun h => containsCL (toLowerCL url) h) : Int)
          + (if has20xx url then 1 else 0)
          + (if containsCL (toLowerCL url) "back" || strContains text "バックナンバー"
              then 2 else 0))
    ∧ priority_score "発生予察情報" "http://example.com/page" = 6 := by
  constructor
  · intro text url
    simp only [priority_score]
    rw [foldl_add_if, foldl_add_if]
    by_cases h1 : has20xx url <;>
      by_cases h2 : containsCL (toLowerCL url) "back" || strContains text "バックナンバー" <;>
        simp [h1, h2]
  · decide

/-- C6, counterexample: the claim says a text containing era-year 1 of
either era yields `offset + 1` from the year-extraction function, but
`extract_year_candidates` drops 平成1 (= 1989) through its `1990 ≤ y` lower
bound and returns nothing. -/
theorem claim_C6_cex :
    extract_year_candidates 2026 "平成1年" = [] ∧
      ¬ ((1989 : Int) ∈ extract_year_candidates 2026 "平成1年") := by
  refine ⟨by decide, by decide⟩

/-- C6 (amended): the token conversion maps era-year `n` to `offset + n`
(令和 offset 2018, 平成 offset 1988) at the boundary and mid-range, and this
value is returned by the extraction functions whenever their own range
filters admit it: `令和1年 → [2019]` and `平成15年 → [2003]` in the
introspect extractor, `令和1 → [2019]`, `平成1 → [1989]` and
`平成15 → [2003]` in the mapper extractor; `平成1年` is dropped by the
introspect extractor because 1989 < 1990 (evaluated at current year 2026). -/
theorem claim_C6_thm :
    yearOfToken ['令', '和', '1'] = some 2019 ∧
      yearOfToken ['平', '成', '1'] = some 1989 ∧
      yearOfToken ['令', '和', '7'] = some 2025 ∧
      yearOfToken ['平', '成', '1', '5'] = some 2003 ∧
      extract_year_candidates 2026 "令和1年" = [2019] ∧
      extract_year_candidates 2026 "令和7年度" = [2025] ∧
      extract_year_candidates 2026 "平成15年" = [2003] ∧
      extract_year_candidates 2026 "平成1年" = [] ∧
      extract_years_from_text 2026 "令和1" = [2019] ∧
      extract_years_from_text 2026 "平成1" = [1989] ∧
      extract_years_from_text 2026 "平成15" = [2003] := by
  refine ⟨rfl, rfl, rfl, rfl, by decide, by decide, by decide, by decide,
    by decide, by decide, by decide⟩

/-- An environment whose robots fetch raises for every host (e.g. the host
is unreachable); the HTTP oracle is irrelevant. -/
def envRobotsRaise : Env where
  robots := fun _ => .raises
  http := fun _ => .resp 200 "text/html" true
  meta := fun _ => ⟨"", 0, [], []⟩
  mmeta := fun _ => ("", "", [])

/-- C9, counterexample: the claim says that when `rp.read()` raises, the
gate treats every URL of the host as allowed.  In fact the swallowed
exception leaves an unread `RobotFileParser` in the cache, and
`can_fetch` answers `False` for an unread parser, so `allowed` is `False`
and `fetch` short-circuits to `robots_disallow`: the gate fails closed. -/
theorem claim_C9_cex :
    allowedE envRobotsRaise "http://x.go.jp/a" = false ∧
      fetchE envRobotsRaise "http://x.go.jp/a"
        = ⟨none, none, false, some "robots_disallow"⟩ := by
  refine ⟨rfl, rfl⟩

/-- C9 (amended): if fetching and parsing a host's robots.txt itself raises,
then for every URL of that host `allowed(url)` returns `False` for the
lifetime of the run — the gate fails closed, not open. -/
theorem claim_C9_thm :
    ∀ (env : Env) (url : String),
      env.robots (hostOf url) = .raises → allowedE env url = false := by
  intro env url h
  simp [allowedE, h, afterRead, can_fetch]

/-- C9 witness: the fail-closed theorem applied to the all-raising
environment at a concrete URL. -/
theorem claim_C9_witness :
    allowedE envRobotsRaise "http://pref.example.go.jp/yosatsu/" = false :=
  claim_C9_thm envRobotsRaise "http://pref.example.go.jp/yosatsu/" rfl

/-- C1, counterexample: the mapper year extractor `extract_years_from_text`
has no guard-word window at all.  For the text `計画 2020` the guard word
`計画` lies inside the 20-character window around the match of `2020`
(start 3, length 4), yet 2020 is returned. -/
theorem claim_C1_cex :
    extract_years_from_text 2026 "計画 2020" = [2020] ∧
      guardNear (normText "計画 2020") 3 4 = true := by
  refine ⟨by decide, by decide⟩

/-- C1 (amended): the introspect extractor `extract_year_candidates` never
returns a year above the current year, and every returned year stems from a
match whose 20-character guard window is clean (and lies in
`[1990, current_year]`); the mapper extractor `extract_years_from_text`
only guarantees the future-year bound — it applies no guard-word window. -/
theorem claim_C1_thm :
    (∀ (cy : Int) (s : String) (y : Int), y ∈ extract_year_candidates cy s →
      y ≤ cy ∧ 1990 ≤ y ∧ ∃ p, p ∈ scanI (normText s) ∧
        procTokenI cy (normText s) p = some y ∧
        guardNear (normText s) p.1 p.2.length = false)
    ∧ (∀ (cy : Int) (s : String) (y : Int),
        y ∈ extract_years_from_text cy s → y ≤ cy) := by
  constructor
  · intro cy s y hy
    obtain ⟨p, hp, hf⟩ := eyc_mem hy
    have hb := procTokenI_bounds hf
    exact ⟨hb.2.1, hb.1, p, hp, hf, hb.2.2⟩
  · intro cy s y hy
    obtain ⟨p, _, hf⟩ := eyft_mem hy
    exact procTokenM_le hf

/-- C1 witness: the amended theorem applied to concrete extractions. -/
theorem claim_C1_witness :
    ((2021 : Int) ≤ 2026 ∧ (1990 : Int) ≤ 2021 ∧
      ∃ p, p ∈ scanI (normText "令和3年") ∧
        procTokenI 2026 (normText "令和3年") p = some 2021 ∧
        guardNear (normText "令和3年") p.1 p.2.length = false) ∧
      (2020 : Int) ≤ 2026 := by
  have h1 : (2021 : Int) ∈ extract_year_candidates 2026 "令和3年" := by decide
  have h2 : (2020 : Int) ∈ extract_years_from_text 2026 "2020年" := by decide
  exact ⟨claim_C1_thm.1 2026 "令和3年" 2021 h1, claim_C1_thm.2 2026 "2020年" 2020 h2⟩

/-- C2, counterexample: the HTML extractor's metadata-date path emits
`[meta_time.year]` with no range check (here 1970 < 1990), and the mapper
extractor keeps 平成1 = 1989 < 1990. -/
theorem claim_C2_cex :
    parse_html_years (some 1970) 2026 "" "" = [1970] ∧ ¬ ((1990 : Int) ≤ 1970) ∧
      extract_years_from_text 2026 "平成1" = [1989] ∧ ¬ ((1990 : Int) ≤ 1989) := by
  refine ⟨rfl, by decide, by decide, by decide⟩

/-- C2 (amended): years produced by the text-heuristic path of the HTML
extractor satisfy `1990 ≤ y ≤ current_year`; the metadata-date path emits
the metadata year unchecked, and the mapper extractor enforces only the
upper bound `y ≤ current_year`. -/
theorem claim_C2_thm :
    (∀ (cy : Int) (t b : String) (y : Int),
      y ∈ parse_html_years none cy t b → 1990 ≤ y ∧ y ≤ cy)
    ∧ (∀ (my cy : Int) (t b : String), parse_html_years (some my) cy t b = [my])
    ∧ (∀ (cy : Int) (s : String) (y : Int),
        y ∈ extract_years_from_text cy s → y ≤ cy) := by
  refine ⟨?_, fun my cy t b => rfl, ?_⟩
  · intro cy t b y hy
    simp only [parse_html_years] at hy
    obtain ⟨p, hp, hf⟩ := eyc_mem hy
    have hb := procTokenI_bounds hf
    exact ⟨hb.1, hb.2.1⟩
  · intro cy s y hy
    obtain ⟨p, _, hf⟩ := eyft_mem hy
    exact procTokenM_le hf

/-- C2 witness: the amended theorem applied to concrete documents. -/
theorem claim_C2_witness :
    ((1990 : Int) ≤ 2021 ∧ (2021 : Int) ≤ 2026) ∧
      parse_html_years (some 1970) 2026 "a" "b" = [1970] ∧
      (1989 : Int) ≤ 2026 := by
  have h1 : (2021 : Int) ∈ parse_html_years none 2026 "令和3年" "" := by decide
  have h2 : (1989 : Int) ∈ extract_years_from_text 2026 "平成1" := by decide
  exact ⟨claim_C2_thm.1 2026 "令和3年" "" 2021 h1,
         claim_C2_thm.2.1 1970 2026 "a" "b",
         claim_C2_thm.2.2 2026 "平成1" 1989 h2⟩

/-- C3, counterexample: two frontier entries discovered at equal depth with
equal scores (both 0) dequeue in URL code-point order, not in insertion
order: the later-enqueued `.../aaa` is popped before the earlier `.../zzz`. -/
theorem claim_C3_cex :
    priority_score "" "http://x.go.jp/zzz" = priority_score "" "http://x.go.jp/aaa" ∧
      popMin
          [⟨-(priority_score "" "http://x.go.jp/zzz"), 1, "http://x.go.jp/zzz", "http://x.go.jp/"⟩,
           ⟨-(priority_score "" "http://x.go.jp/aaa"), 1, "http://x.go.jp/aaa", "http://x.go.jp/"⟩]
        = some (⟨0, 1, "http://x.go.jp/aaa", "http://x.go.jp/"⟩,
                [⟨0, 1, "http://x.go.jp/zzz", "http://x.go.jp/"⟩]) := by
  refine ⟨by decide, by decide⟩

/-- C3 (amended): in `introspect_pref` a frontier entry with strictly higher
priority (more negative first tuple component) is dequeued before a
lower-priority one regardless of enqueue order; among equal-priority,
equal-depth entries the tie is broken by URL code-point order (then source
URL), not by insertion order.  In `map_pref` the frontier is a plain FIFO
queue: entries dequeue in insertion order with no priority at all. -/
theorem claim_C3_thm :
    (∀ a b : QEntry, a.negPrio < b.negPrio →
      popMin [a, b] = some (a, [b]) ∧ popMin [b, a] = some (a, [b]))
    ∧ (∀ a b : QEntry, a.negPrio = b.negPrio → a.depth = b.depth →
        charsLt a.url.toList b.url.toList = true →
        popMin [a, b] = some (a, [b]) ∧ popMin [b, a] = some (a, [b]))
    ∧ (∀ (e : MEntry) (t : List MEntry), mpop (e :: t) = some (e, t)) := by
  refine ⟨?_, ?_, fun e t => rfl⟩
  · intro a b h
    obtain ⟨h1, h2⟩ := keyLt_of_negPrio_lt h
    constructor
    · simp [popMin_pair, h2]
    · simp [popMin_pair, h1]
  · intro a b hp hd hu
    obtain ⟨h1, h2⟩ := keyLt_of_url_lt hp hd hu
    constructor
    · simp [popMin_pair, h2]
    · simp [popMin_pair, h1]

/-- C3 witness: a keyword-scored entry (score 6, first component -6) beats a
zero-scored entry from both enqueue orders. -/
theorem claim_C3_witness :
    popMin [⟨-6, 1, "http://x.go.jp/b", "p"⟩, ⟨0, 1, "http://x.go.jp/c", "p"⟩]
        = some (⟨-6, 1, "http://x.go.jp/b", "p"⟩, [⟨0, 1, "http://x.go.jp/c", "p"⟩]) ∧
      popMin [⟨0, 1, "http://x.go.jp/c", "p"⟩, ⟨-6, 1, "http://x.go.jp/b", "p"⟩]
        = some (⟨-6, 1, "http://x.go.jp/b", "p"⟩, [⟨0, 1, "http://x.go.jp/c", "p"⟩]) :=
  claim_C3_thm.1 ⟨-6, 1, "http://x.go.jp/b", "p"⟩ ⟨0, 1, "http://x.go.jp/c", "p"⟩
    (by decide)

/-- C7: every enqueued frontier entry carries the discovering page's depth
plus one; entries are enqueued only when that depth is at most the
configured maximum; and every fetched page (equivalently, every CrawlRecord,
since both loops append exactly one record per fetched URL) has depth at
most the maximum, in both crawl scripts. -/
theorem claim_C7_thm :
    (∀ (su : String) (vis : List String) (d : Nat) (e : QEntry) (kind : String)
        (links : List (String × String)) (q : QEntry),
      q ∈ newEntriesI su vis d e kind links → q.depth = e.depth + 1 ∧ q.depth ≤ d)
    ∧ (∀ (su : String) (dep : Nat) (url : String) (d : Nat)
        (anchors : List (String × String)) (m : MEntry),
      m ∈ mNewEntries su dep url d anchors → m.depth = dep + 1 ∧ m.depth ≤ d)
    ∧ (∀ (env : Env) (su : String) (mp d f : Nat) (r : IRecord),
      r ∈ (introspect_pref env su mp d f).records → r.depth ≤ d)
    ∧ (∀ (env : Env) (cy : Int) (su : String) (mp d f : Nat) (r : MRecord),
      r ∈ (map_pref env cy su mp d f).pages → r.depth ≤ d) := by
  refine ⟨fun su vis d e kind links q hq => newEntriesI_depth q hq,
          fun su dep url d anchors m hm => mNewEntries_depth m hm, ?_, ?_⟩
  · intro env su mp d f r hr
    have hinv : IDepthInv d ⟨[], [⟨-10, 0, su, "root"⟩], []⟩ := by
      constructor
      · intro e he
        rcases List.mem_singleton.mp he with rfl
        exact Nat.zero_le d
      · intro r hr
        simp at hr
    exact (irun_depthInv hinv f).2 r hr
  · intro env cy su mp d f r hr
    have hinv : MDepthInv d ⟨[], [⟨0, su, ""⟩], [], []⟩ := by
      constructor
      · intro e he
        rcases List.mem_singleton.mp he with rfl
        exact Nat.zero_le d
      · intro r hr
        simp at hr
    exact (mrun_depthInv hinv f).2 r hr

/-- A small concrete environment: the seed page is HTML with one same-domain
link; every other URL fails at transport level; robots allows everything. -/
def envT : Env where
  robots := fun _ => .ok (fun _ => true)
  http := fun u =>
    if u == "http://a.go.jp/" then .resp 200 "text/html" true else .fail "refused"
  meta := fun u =>
    if u == "http://a.go.jp/" then
      ⟨"Top", 100, [2024], [("http://a.go.jp/b.html", "発生予察情報")]⟩
    else ⟨"", 0, [], []⟩
  mmeta := fun u =>
    if u == "http://a.go.jp/" then
      ("Top", "H", [("http://a.go.jp/b.html", "発生予察情報")])
    else ("", "", [])

/-- C7 witness: the four parts of the depth theorem applied to a concrete
enqueue and to concrete records of finished runs of both loops. -/
theorem claim_C7_witness :
    ((⟨0, 1, "http://a.go.jp/b.html", "http://a.go.jp/"⟩ : QEntry).depth
        = (⟨-10, 0, "http://a.go.jp/", "root"⟩ : QEntry).depth + 1 ∧
      (⟨0, 1, "http://a.go.jp/b.html", "http://a.go.jp/"⟩ : QEntry).depth ≤ 2) ∧
    ((⟨1, "http://a.go.jp/b.html", "http://a.go.jp/"⟩ : MEntry).depth = 0 + 1 ∧
      (⟨1, "http://a.go.jp/b.html", "http://a.go.jp/"⟩ : MEntry).depth ≤ 2) ∧
    (⟨"http://a.go.jp/", 0, "root", some 200, some "text/html", "html", "Top",
        [2024], 100⟩ : IRecord).depth ≤ 2 ∧
    (⟨"http://a.go.jp/", 0, "", some 200, "text/html", "html"⟩ : MRecord).depth ≤ 2 := by
  refine ⟨claim_C7_thm.1 "http://a.go.jp/" ["http://a.go.jp/"] 2
      ⟨-10, 0, "http://a.go.jp/", "root"⟩ "html" [("http://a.go.jp/b.html", "t")]
      ⟨0, 1, "http://a.go.jp/b.html", "http://a.go.jp/"⟩ (by decide),
    claim_C7_thm.2.1 "http://a.go.jp/" 0 "http://a.go.jp/" 2
      [("http://a.go.jp/b.html", "t")]
      ⟨1, "http://a.go.jp/b.html", "http://a.go.jp/"⟩ (by decide),
    claim_C7_thm.2.2.1 envT "http://a.go.jp/" 10 2 5
      ⟨"http://a.go.jp/", 0, "root", some 200, some "text/html", "html", "Top",
        [2024], 100⟩ (by decide),
    claim_C7_thm.2.2.2 envT 2026 "http://a.go.jp/" 10 2 5
      ⟨"http://a.go.jp/", 0, "", some 200, "text/html", "html"⟩ (by decide)⟩

/-- C8: for every run of either crawl loop (any environment, configuration
and fuel), the visited set never exceeds `max_pages` entries and each URL
occurs at most once in the per-seed record sequence. -/
theorem claim_C8_thm :
    ∀ (env : Env) (cy : Int) (su : String) (mp d f : Nat),
      (introspect_pref env su mp d f).visited.length ≤ mp ∧
      ((introspect_pref env su mp d f).records.map (fun r => r.url)).Nodup ∧
      (map_pref env cy su mp d f).visited.length ≤ mp ∧
      ((map_pref env cy su mp d f).pages.map (fun r => r.url)).Nodup := by
  intro env cy su mp d f
  refine ⟨irun_visited_le (by simp) f, ?_, mrun_visited_le (by simp) f, ?_⟩
  · have hinv : IUrlInv ⟨[], [⟨-10, 0, su, "root"⟩], []⟩ := by
      constructor
      · simp
      · intro r hr
        simp at hr
    exact (irun_urlInv hinv f).1
  · have hinv : MUrlInv ⟨[], [⟨0, su, ""⟩], [], []⟩ := by
      constructor
      · simp
      · intro r hr
        simp at hr
    exact (mrun_urlInv hinv f).1

/-- C10: a robots-denied URL yields the fetch quadruple
`(None, None, None, "robots_disallow")` with no HTTP request (the result is
independent of the HTTP oracle); the introspect loop then appends an
error-kind record with empty status and content type — the very record a
transport failure produces — and the URL goes into the visited set, so it
counts toward the `max_pages` cap. -/
theorem claim_C10_thm :
    (∀ (robots : String → ReadOutcome) (http1 http2 : String → HttpRes)
        (meta1 : String → MetaD)
        (mm1 : String → String × String × List (String × String)) (url : String),
      allowedE ⟨robots, http1, meta1, mm1⟩ url = false →
        fetchE ⟨robots, http1, meta1, mm1⟩ url
            = ⟨none, none, false, some "robots_disallow"⟩ ∧
          fetchE ⟨robots, http1, meta1, mm1⟩ url
            = fetchE ⟨robots, http2, meta1, mm1⟩ url)
    ∧ (∀ (env : Env) (su : String) (d : Nat) (s : IState) (e : QEntry)
        (q' : List QEntry),
      popMin s.queue = some (e, q') → s.visited.contains e.url = false →
      allowedE env e.url = false →
        (istep env su d s).records
            = s.records ++ [⟨e.url, e.depth, e.src, none, none, "error", "", [], 0⟩]
          ∧ e.url ∈ (istep env su d s).visited
          ∧ (istep env su d s).visited.length = s.visited.length + 1)
    ∧ (∀ (env : Env) (su : String) (d : Nat) (s : IState) (e : QEntry)
        (q' : List QEntry) (msg : String),
      popMin s.queue = some (e, q') → s.visited.contains e.url = false →
      allowedE env e.url = true → env.http e.url = .fail msg →
        (istep env su d s).records
            = s.records ++ [⟨e.url, e.depth, e.src, none, none, "error", "", [], 0⟩]) := by
  refine ⟨?_, ?_, ?_⟩
  · intro robots http1 http2 meta1 mm1 url h
    have h2 : allowedE ⟨robots, http2, meta1, mm1⟩ url = false := h
    constructor
    · simp [fetchE, h]
    · simp [fetchE, h, h2]
  · intro env su d s e q' hp hnv hden
    have hf : fetchE env e.url = ⟨none, none, false, some "robots_disallow"⟩ := by
      simp [fetchE, hden]
    have hs : istep env su d s
        = { visited := e.url :: s.visited, queue := q',
            records := s.records ++
              [⟨e.url, e.depth, e.src, none, none, "error", "", [], 0⟩] } := by
      simp [istep, hp, hnv, hf]
      intro hmem
      have h1 : s.visited.contains e.url = true := List.elem_iff.mpr hmem
      rw [hnv] at h1
      exact Bool.false_ne_true h1
    rw [hs]
    exact ⟨rfl, List.mem_cons_self _ _, by simp⟩
  · intro env su d s e q' msg hp hnv hallow hhttp
    have hf : fetchE env e.url = ⟨none, none, false, some msg⟩ := by
      simp [fetchE, hallow, hhttp]
    have hs : istep env su d s
        = { visited := e.url :: s.visited, queue := q',
            records := s.records ++
              [⟨e.url, e.depth, e.src, none, none, "error", "", [], 0⟩] } := by
      simp [istep, hp, hnv, hf]
      intro hmem
      have h1 : s.visited.contains e.url = true := List.elem_iff.mpr hmem
      rw [hnv] at h1
      exact Bool.false_ne_true h1
    rw [hs]

/-- An environment whose robots ruleset denies exactly one URL. -/
def envDeny : Env where
  robots := fun _ => .ok (fun u => !(u == "http://a.go.jp/x"))
  http := fun _ => .resp 200 "text/html" true
  meta := fun _ => ⟨"", 0, [], []⟩
  mmeta := fun _ => ("", "", [])

/-- C10 witness: the record/visited behavior on a concrete robots-denied
URL, and the fetch quadruple for a concrete transport failure. -/
theorem claim_C10_witness :
    ((istep envDeny "http://a.go.jp/" 2
        ⟨[], [⟨-10, 0, "http://a.go.jp/x", "root"⟩], []⟩).records
      = [] ++ [⟨"http://a.go.jp/x", 0, "root", none, none, "error", "", [], 0⟩]
    ∧ "http://a.go.jp/x" ∈ (istep envDeny "http://a.go.jp/" 2
        ⟨[], [⟨-10, 0, "http://a.go.jp/x", "root"⟩], []⟩).visited
    ∧ (istep envDeny "http://a.go.jp/" 2
        ⟨[], [⟨-10, 0, "http://a.go.jp/x", "root"⟩], []⟩).visited.length
      = ([] : List String).length + 1)
    ∧ fetchE envDeny "http://a.go.jp/x" = ⟨none, none, false, some "robots_disallow"⟩ := by
  refine ⟨claim_C10_thm.2.1 envDeny "http://a.go.jp/" 2
      ⟨[], [⟨-10, 0, "http://a.go.jp/x", "root"⟩], []⟩
      ⟨-10, 0, "http://a.go.jp/x", "root"⟩ [] (by decide) (by decide) (by decide),
    (claim_C10_thm.1 (fun _ => .ok (fun u => !(u == "http://a.go.jp/x")))
      (fun _ => .resp 200 "text/html" true) (fun _ => .resp 200 "text/html" true)
      (fun _ => ⟨"", 0, [], []⟩) (fun _ => ("", "", []))
      "http://a.go.jp/x" (by decide)).1⟩
